import Mathlib

/-!
# Verification of the session engine (`db.py`)

A shallow embedding of the verification-session engine of the
UW-server-verification repository, together with proofs about it.

The engine (`SessionManager` in `db.py`) stores one `Session` per Discord
`user_id` in a persistent key-value store (`SqliteDict`).  We model the store
as an association list from keys (`Int`, Python integers) to `Session`
records, with Python-`dict` semantics: assignment replaces the entry for an
existing key or appends a new one, `del` removes the entry, iteration walks
the entries in order.

Sources of randomness and of wall-clock time (`random.randint`,
`uuid.uuid4()`, `datetime.datetime.now()`) are passed in as explicit
parameters; timestamps and durations are modelled as integers (seconds).
UUIDs are modelled as natural numbers, compared only for equality, exactly as
the source does.
-/

/-- `SessionState` from `db.py`: the four states of a verification session. -/
inductive SessionState where
  | WAITING_ON_START
  | WAITING_ON_CODE
  | VERIFIED
  | FAILED
deriving DecidableEq, Repr

/-- The `Session` dataclass from `db.py`. -/
structure Session where
  uuid : Nat
  user_id : Int
  guild_id : Int
  discord_name : String
  verification_code : String
  timestamp : Int
  state : SessionState := SessionState.WAITING_ON_START
  remaining_attempts : Int := 5
deriving DecidableEq, Repr

/-- The sentinel code of the synthetic testing session (`db.py`, line 16). -/
def TESTING_VERIFICATION_CODE : String := "-420"

/-- The persistent store: key-value pairs keyed by `user_id`. -/
abbrev Store := List (Int × Session)

/-- Python `db[user_id]` (as an `Option`): first entry with the given key. -/
def dbLookup : Store → Int → Option Session
  | [], _ => none
  | (k, s) :: rest, u => if k = u then some s else dbLookup rest u

/-- Python `db[user_id] = session`: replace the entry for the key, or append. -/
def dbInsert (u : Int) (s : Session) : Store → Store
  | [] => [(u, s)]
  | (k, t) :: rest => if k = u then (u, s) :: rest else (k, t) :: dbInsert u s rest

/-- Python `del db[user_id]`: drop the entry for the key (no-op when absent,
which is where the source catches `KeyError`). -/
def dbErase (u : Int) : Store → Store
  | [] => []
  | (k, s) :: rest => if k = u then rest else (k, s) :: dbErase u rest

/-- The keys of the store, in order (`db.keys()`). -/
def dbKeys (db : Store) : List Int := db.map Prod.fst

/-- `SessionManager.try_new` (`db.py` 67–101).  Generates a verification code
`str(random.randint(100000, 999999))` and a fresh UUID, then: if a session for
`user_id` already exists, returns its stored UUID and leaves the store
untouched; otherwise persists a fresh record (state `WAITING_ON_START`,
`remaining_attempts = 5`, the dataclass defaults) and returns the fresh UUID.
The random draw `rand`, the fresh UUID `session_uuid` and the current time
`now` are explicit parameters. -/
def try_new (user_id guild_id : Int) (discord_name : String)
    (rand : Nat) (session_uuid : Nat) (now : Int) (db : Store) : Nat × Store :=
  let verification_code := Nat.repr rand
  match dbLookup db user_id with
  | some s => (s.uuid, db)
  | none =>
      (session_uuid,
        dbInsert user_id
          { uuid := session_uuid
            user_id := user_id
            guild_id := guild_id
            discord_name := discord_name
            verification_code := verification_code
            timestamp := now } db)

/-- `SessionManager._get` (`db.py` 122–135): lookup by `user_id`, returning
`none` on a missing key or on a UUID mismatch. -/
def _get (db : Store) (user_id : Int) (u : Nat) : Option Session :=
  match dbLookup db user_id with
  | none => none
  | some s => if s.uuid ≠ u then none else some s

/-- `SessionManager.session` (`db.py` 137–144): read-only lookup. -/
def session (user_id : Int) (u : Nat) (db : Store) : Option Session :=
  _get db user_id u

/-- `SessionManager.set_email_sent` (`db.py` 146–163): transition to
`WAITING_ON_CODE`; a vanished session is logged and ignored. -/
def set_email_sent (user_id : Int) (u : Nat) (db : Store) : Store :=
  match _get db user_id u with
  | none => db
  | some s => dbInsert user_id { s with state := SessionState.WAITING_ON_CODE } db

/-- The value returned by `SessionManager.verify` when the session exists:
Python `True`, or the number of remaining attempts. -/
inductive VerifyResult where
  | success
  | attemptsRemaining (n : Int)
deriving DecidableEq, Repr

/-- `SessionManager.verify` (`db.py` 165–200).  Returns the result (with
`none` for a missing session) together with the updated store:
if `remaining_attempts == 0`, answer `0` with no mutation; on a code match,
set `VERIFIED`; on a mismatch, decrement `remaining_attempts` and set
`FAILED` when the counter reaches `0`. -/
def verify (user_id : Int) (u : Nat) (attempted_code : String) (db : Store) :
    Option VerifyResult × Store :=
  match _get db user_id u with
  | none => (none, db)
  | some s =>
      if s.remaining_attempts = 0 then
        (some (VerifyResult.attemptsRemaining 0), db)
      else if attempted_code = s.verification_code then
        (some VerifyResult.success,
          dbInsert user_id { s with state := SessionState.VERIFIED } db)
      else
        let r := s.remaining_attempts - 1
        (some (VerifyResult.attemptsRemaining r),
          dbInsert user_id
            { s with
              remaining_attempts := r
              state := if r = 0 then SessionState.FAILED else s.state } db)

/-- `SessionManager.delete_session` (`db.py` 202–212): unconditional removal.
The Python method returns `None` on both branches (the absent case is only
logged); the `Unit` component records that return value. -/
def delete_session (user_id : Int) (db : Store) : Unit × Store :=
  ((), dbErase user_id db)

/-- `SessionManager._expired` (`db.py` 214–219): strict comparison
`(now - created_at) > expiry_seconds`. -/
def _expired (expiry_seconds now : Int) (s : Session) : Bool :=
  decide (now - s.timestamp > expiry_seconds)

/-- The loop body of `collect_garbage`: look the key up again and delete the
record when `_expired` holds. -/
def gcStep (expiry_seconds now : Int) (acc : Store) (k : Int) : Store :=
  match dbLookup acc k with
  | none => acc
  | some s => if _expired expiry_seconds now s then dbErase k acc else acc

/-- `SessionManager.collect_garbage` (`db.py` 221–238): snapshot the key set,
then for each key delete the record if it has expired. -/
def collect_garbage (expiry_seconds now : Int) (db : Store) : Store :=
  (dbKeys db).foldl (gcStep expiry_seconds now) db

/-- The loop body of `verified_user_ids`: read the session for a snapshotted
key and yield it when its state is `VERIFIED`, unless it carries the reserved
testing sentinel code. -/
def vuYield (db : Store) (k : Int) : Option Session :=
  match dbLookup db k with
  | none => none
  | some s =>
      if s.state = SessionState.VERIFIED then
        if s.verification_code = TESTING_VERIFICATION_CODE then none
        else some s
      else none

/-- `SessionManager.verified_user_ids` (`db.py` 240–259): snapshot the key
set, then yield each session whose state is `VERIFIED`, skipping the reserved
testing sentinel code. -/
def verified_user_ids (db : Store) : List Session :=
  (dbKeys db).filterMap (vuYield db)

/-! ### The engine's operations as a transition system

The five public mutating operations of the `SessionManager`, acting on the
store.  Randomness and wall-clock readings are carried inside the operation.
-/

inductive Op where
  | opTryNew (user_id guild_id : Int) (discord_name : String)
      (rand session_uuid : Nat) (now : Int)
  | opSetEmailSent (user_id : Int) (u : Nat)
  | opVerify (user_id : Int) (u : Nat) (attempted_code : String)
  | opDeleteSession (user_id : Int)
  | opCollectGarbage (now : Int)

/-- The store produced by one engine operation. -/
def applyOp (expiry_seconds : Int) : Op → Store → Store
  | Op.opTryNew uid gid name r su now, db => (try_new uid gid name r su now db).2
  | Op.opSetEmailSent uid u, db => set_email_sent uid u db
  | Op.opVerify uid u c, db => (verify uid u c db).2
  | Op.opDeleteSession uid, db => (delete_session uid db).2
  | Op.opCollectGarbage now, db => collect_garbage expiry_seconds now db

/-- The documented precondition of `MarkEmailSent`: it is only invoked on a
session currently in `WAITING_ON_START` or `WAITING_ON_CODE` (the web
front-end in `server.py` redirects `VERIFIED`/`FAILED` sessions away from
`/start` before ever calling `set_email_sent`).  All other operations carry
no precondition. -/
def opOk (db : Store) : Op → Prop
  | Op.opSetEmailSent uid u =>
      ∀ s, _get db uid u = some s →
        s.state = SessionState.WAITING_ON_START ∨
        s.state = SessionState.WAITING_ON_CODE
  | _ => True

/-- Position of a state along `AwaitingStart → AwaitingCode → {Verified,
Failed}`; the two terminal states share the top rank. -/
def stateRank : SessionState → Nat
  | SessionState.WAITING_ON_START => 0
  | SessionState.WAITING_ON_CODE => 1
  | SessionState.VERIFIED => 2
  | SessionState.FAILED => 2

/-- A sequence of consecutive `verify` calls for the same `(user_id, uuid)`
pair, one per attempted code, returning the list of results and the final
store. -/
def verifySeq (user_id : Int) (u : Nat) (codes : List String) (db : Store) :
    List (Option VerifyResult) × Store :=
  match codes with
  | [] => ([], db)
  | c :: cs =>
      let rdb := verify user_id u c db
      let rest := verifySeq user_id u cs rdb.2
      (rdb.1 :: rest.1, rest.2)

/-- The record persisted by `try_new` for a fresh `user_id` (the `Session`
literal of `db.py` lines 92–99, with the dataclass defaults). -/
def freshSession (user_id guild_id : Int) (discord_name : String)
    (rand session_uuid : Nat) (now : Int) : Session :=
  { uuid := session_uuid
    user_id := user_id
    guild_id := guild_id
    discord_name := discord_name
    verification_code := Nat.repr rand
    timestamp := now }

/-- The per-record invariant maintained by the engine:
`remaining_attempts ∈ [0, 5]`, a zero counter forces `FAILED`, and a session
still awaiting interaction has at least one attempt left (the auxiliary
strengthening that makes the invariant inductive). -/
def SessionInv (s : Session) : Prop :=
  0 ≤ s.remaining_attempts ∧ s.remaining_attempts ≤ 5 ∧
  (s.remaining_attempts = 0 → s.state = SessionState.FAILED) ∧
  ((s.state = SessionState.WAITING_ON_START ∨
    s.state = SessionState.WAITING_ON_CODE) → 1 ≤ s.remaining_attempts)

instance : DecidablePred SessionInv := fun s => by
  unfold SessionInv
  infer_instance

/-- The store-wide invariant: keys are distinct (the `dict` shape of the
underlying store) and every stored record satisfies `SessionInv`. -/
def StoreInv (db : Store) : Prop :=
  (dbKeys db).Nodup ∧ ∀ p ∈ db, SessionInv p.2

instance : DecidablePred StoreInv := fun db => by
  unfold StoreInv
  infer_instance

/-- The computation `verify` performs between reading the record and writing
it back: the result it returns together with the record it writes (`none`
when it writes nothing). -/
def verifyCompute (s : Session) (attempted_code : String) :
    VerifyResult × Option Session :=
  if s.remaining_attempts = 0 then (VerifyResult.attemptsRemaining 0, none)
  else if attempted_code = s.verification_code then
    (VerifyResult.success, some { s with state := SessionState.VERIFIED })
  else
    let r := s.remaining_attempts - 1
    (VerifyResult.attemptsRemaining r,
      some { s with
             remaining_attempts := r
             state := if r = 0 then SessionState.FAILED else s.state })

/-- Two `verify` calls racing on the same session.  The source performs its
read-modify-write through a `SqliteDict` handle opened per call, with no
per-user lock, so two concurrent calls can both read the record before
either write commits; this models that interleaving: both computations start
from the same snapshot of the record, then the two writes land in order. -/
def interleaved_two_verifies (user_id : Int) (u : Nat) (c1 c2 : String)
    (db : Store) : (Option VerifyResult × Option VerifyResult) × Store :=
  match _get db user_id u with
  | none => ((none, none), db)
  | some s =>
      let o1 := verifyCompute s c1
      let o2 := verifyCompute s c2
      let db1 := match o1.2 with | none => db | some t => dbInsert user_id t db
      let db2 := match o2.2 with | none => db1 | some t => dbInsert user_id t db1
      ((some o1.1, some o2.1), db2)

/-- A concrete session record used to instantiate witnesses. -/
def sampleSession : Session :=
  { uuid := 7
    user_id := 42
    guild_id := 1
    discord_name := "alice"
    verification_code := "123456"
    timestamp := 0
    state := SessionState.WAITING_ON_CODE
    remaining_attempts := 5 }

/-! ### Basic lemmas about the store operations -/

theorem dbLookup_dbInsert (u v : Int) (s : Session) (db : Store) :
    dbLookup (dbInsert u s db) v = if u = v then some s else dbLookup db v := by
  induction db with
  | nil => simp [dbInsert, dbLookup]
  | cons p rest ih =>
    obtain ⟨k, t⟩ := p
    by_cases hku : k = u
    · subst hku
      by_cases hkv : k = v <;> simp [dbInsert, dbLookup, hkv]
    · by_cases hkv : k = v
      · subst hkv
        have huv : ¬ u = k := fun h => hku h.symm
        simp [dbInsert, dbLookup, hku, huv]
      · simp [dbInsert, dbLookup, hku, hkv, ih]

theorem dbLookup_eq_none_of_not_mem (db : Store) (u : Int) (h : u ∉ dbKeys db) :
    dbLookup db u = none := by
  induction db with
  | nil => rfl
  | cons p rest ih =>
    obtain ⟨k, t⟩ := p
    simp only [dbKeys, List.map_cons, List.mem_cons] at h
    push_neg at h
    simp only [dbLookup]
    rw [if_neg (fun hk => h.1 hk.symm)]
    exact ih (by simpa [dbKeys] using h.2)

theorem dbLookup_mem {db : Store} {u : Int} {s : Session}
    (h : dbLookup db u = some s) : (u, s) ∈ db := by
  induction db with
  | nil => simp [dbLookup] at h
  | cons p rest ih =>
    obtain ⟨k, t⟩ := p
    simp only [dbLookup] at h
    by_cases hk : k = u
    · subst hk
      rw [if_pos rfl] at h
      simp [← Option.some_inj.mp h]
    · rw [if_neg hk] at h
      exact List.mem_cons_of_mem _ (ih h)

theorem mem_dbInsert {p : Int × Session} {u : Int} {s : Session} {db : Store}
    (h : p ∈ dbInsert u s db) : p = (u, s) ∨ p ∈ db := by
  induction db with
  | nil => simpa [dbInsert] using h
  | cons q rest ih =>
    obtain ⟨k, t⟩ := q
    simp only [dbInsert] at h
    split at h
    · rcases List.mem_cons.mp h with h1 | h1
      · exact Or.inl h1
      · exact Or.inr (List.mem_cons_of_mem _ h1)
    · rcases List.mem_cons.mp h with h1 | h1
      · exact Or.inr (by simp [h1])
      · rcases ih h1 with h2 | h2
        · exact Or.inl h2
        · exact Or.inr (List.mem_cons_of_mem _ h2)

theorem dbErase_sublist (u : Int) (db : Store) : (dbErase u db).Sublist db := by
  induction db with
  | nil => simp [dbErase]
  | cons p rest ih =>
    obtain ⟨k, t⟩ := p
    by_cases hk : k = u
    · simp [dbErase, hk]
    · simpa [dbErase, hk] using List.Sublist.cons₂ (k, t) ih

theorem mem_dbErase {p : Int × Session} {u : Int} {db : Store}
    (h : p ∈ dbErase u db) : p ∈ db :=
  (dbErase_sublist u db).subset h

theorem mem_dbKeys_dbInsert (v u : Int) (s : Session) (db : Store) :
    v ∈ dbKeys (dbInsert u s db) ↔ v = u ∨ v ∈ dbKeys db := by
  induction db with
  | nil => simp [dbInsert, dbKeys]
  | cons p rest ih =>
    obtain ⟨k, t⟩ := p
    by_cases hk : k = u
    · subst hk
      simp [dbInsert, dbKeys]
    · simp only [dbInsert, if_neg hk, dbKeys, List.map_cons, List.mem_cons] at ih ⊢
      rw [ih]
      tauto

theorem nodup_dbKeys_dbInsert {u : Int} {s : Session} {db : Store}
    (h : (dbKeys db).Nodup) : (dbKeys (dbInsert u s db)).Nodup := by
  induction db with
  | nil => simp [dbInsert, dbKeys]
  | cons p rest ih =>
    obtain ⟨k, t⟩ := p
    simp only [dbKeys, List.map_cons, List.nodup_cons] at h
    by_cases hk : k = u
    · subst hk
      simpa [dbInsert, dbKeys] using h
    · simp only [dbInsert, if_neg hk, dbKeys, List.map_cons, List.nodup_cons]
      refine ⟨fun hmem => ?_, ih h.2⟩
      rcases (mem_dbKeys_dbInsert k u s rest).mp hmem with h' | h'
      · exact hk h'
      · exact h.1 h'

theorem nodup_dbKeys_dbErase {u : Int} {db : Store}
    (h : (dbKeys db).Nodup) : (dbKeys (dbErase u db)).Nodup :=
  h.sublist (List.Sublist.map Prod.fst (dbErase_sublist u db))

theorem dbLookup_dbErase (u v : Int) (db : Store) (h : (dbKeys db).Nodup) :
    dbLookup (dbErase u db) v = if u = v then none else dbLookup db v := by
  induction db with
  | nil => simp [dbErase, dbLookup]
  | cons p rest ih =>
    obtain ⟨k, t⟩ := p
    simp only [dbKeys, List.map_cons, List.nodup_cons] at h
    by_cases hk : k = u
    · subst hk
      simp only [dbErase, if_pos rfl]
      by_cases hv : k = v
      · rw [if_pos hv]
        rw [← hv]
        exact dbLookup_eq_none_of_not_mem rest k (by simpa [dbKeys] using h.1)
      · rw [if_neg hv]
        simp [dbLookup, hv]
    · simp only [dbErase, if_neg hk]
      by_cases hv : k = v
      · have huv : ¬ u = v := fun h' => hk (hv.trans h'.symm)
        rw [if_neg huv]
        simp [dbLookup, hv]
      · simp only [dbLookup, if_neg hv]
        rw [ih (by simpa [dbKeys] using h.2)]

/-! ### The garbage-collection sweep is elementwise filtering

The sweep snapshots the key set and then processes each key in its own
critical section.  Executed without interference, and with the store's keys
distinct (a `dict` invariant of the source's store), the fold is exactly a
filter on the expiry predicate. -/

theorem foldl_gcStep_cons (e n k : Int) (s : Session) :
    ∀ (ks : List Int) (acc : Store), k ∉ ks →
      ks.foldl (gcStep e n) ((k, s) :: acc) = (k, s) :: ks.foldl (gcStep e n) acc := by
  intro ks
  induction ks with
  | nil => intro acc _; rfl
  | cons k' ks' ih =>
    intro acc hk
    have hne : ¬ (k = k') := fun h => hk (by simp [h])
    have hk' : k ∉ ks' := fun h => hk (List.mem_cons_of_mem _ h)
    have hstep : gcStep e n ((k, s) :: acc) k' = (k, s) :: gcStep e n acc k' := by
      simp only [gcStep, dbLookup, if_neg hne]
      cases dbLookup acc k' with
      | none => rfl
      | some t =>
          by_cases hexp : _expired e n t = true
          · simp [hexp, dbErase, hne]
          · simp [hexp]
    rw [List.foldl_cons, List.foldl_cons, hstep, ih _ hk']

theorem collect_garbage_eq_filter (e n : Int) (db : Store)
    (h : (dbKeys db).Nodup) :
    collect_garbage e n db = db.filter (fun p => ! _expired e n p.2) := by
  induction db with
  | nil => rfl
  | cons p rest ih =>
    obtain ⟨k, s⟩ := p
    simp only [dbKeys, List.map_cons, List.nodup_cons] at h
    have hk : k ∉ dbKeys rest := by simpa [dbKeys] using h.1
    have hstep : gcStep e n ((k, s) :: rest) k =
        if _expired e n s then rest else (k, s) :: rest := by
      simp [gcStep, dbLookup, dbErase]
    simp only [collect_garbage, dbKeys, List.map_cons, List.foldl_cons, hstep]
    by_cases hexp : _expired e n s = true
    · rw [if_pos hexp]
      simpa [List.filter_cons, hexp] using ih h.2
    · rw [if_neg hexp]
      have hk2 : k ∉ List.map Prod.fst rest := hk
      rw [foldl_gcStep_cons e n k s _ _ hk2]
      have ih' := ih h.2
      simp only [collect_garbage, dbKeys] at ih'
      rw [ih']
      simp [List.filter_cons, hexp]

theorem dbLookup_filter (f : Int × Session → Bool) (db : Store)
    (h : (dbKeys db).Nodup) (u : Int) :
    dbLookup (db.filter f) u =
      match dbLookup db u with
      | none => none
      | some s => if f (u, s) then some s else none := by
  induction db with
  | nil => rfl
  | cons p rest ih =>
    obtain ⟨k, t⟩ := p
    simp only [dbKeys, List.map_cons, List.nodup_cons] at h
    have ih' := ih h.2
    by_cases hk : k = u
    · subst hk
      rw [List.filter_cons]
      by_cases hf : f (k, t) = true
      · simp [hf, dbLookup]
      · rw [if_neg hf]
        rw [ih']
        rw [dbLookup_eq_none_of_not_mem rest k (by simpa [dbKeys] using h.1)]
        simp [dbLookup, hf]
    · rw [List.filter_cons]
      by_cases hf : f (k, t) = true
      · simp only [if_pos hf, dbLookup, if_neg hk]
        exact ih'
      · simp only [if_neg hf, dbLookup, if_neg hk]
        exact ih'

/-! ### The verified-session enumeration is elementwise filtering -/

theorem filterMap_vuYield_cons (k : Int) (t : Session) (rest : Store) :
    ∀ ks : List Int, k ∉ ks →
      ks.filterMap (vuYield ((k, t) :: rest)) = ks.filterMap (vuYield rest) := by
  intro ks
  induction ks with
  | nil => intro _; rfl
  | cons k' ks' ih =>
    intro hk
    have hne : ¬ (k = k') := fun h => hk (by simp [h])
    have hk' : k ∉ ks' := fun h => hk (List.mem_cons_of_mem _ h)
    have hy : vuYield ((k, t) :: rest) k' = vuYield rest k' := by
      simp [vuYield, dbLookup, hne]
    rw [List.filterMap_cons, List.filterMap_cons, hy, ih hk']

theorem verified_user_ids_eq_filter (db : Store) (h : (dbKeys db).Nodup) :
    verified_user_ids db =
      (db.filter (fun p =>
        decide (p.2.state = SessionState.VERIFIED) &&
        ! decide (p.2.verification_code = TESTING_VERIFICATION_CODE))).map
        Prod.snd := by
  induction db with
  | nil => rfl
  | cons p rest ih =>
    obtain ⟨k, t⟩ := p
    simp only [dbKeys, List.map_cons, List.nodup_cons] at h
    have hk : k ∉ dbKeys rest := by simpa [dbKeys] using h.1
    have hy : vuYield ((k, t) :: rest) k =
        if t.state = SessionState.VERIFIED then
          if t.verification_code = TESTING_VERIFICATION_CODE then none
          else some t
        else none := by
      simp [vuYield, dbLookup]
    have ih' := ih h.2
    simp only [verified_user_ids] at ih'
    simp only [verified_user_ids, dbKeys, List.map_cons, List.filterMap_cons, hy]
    rw [show (List.map Prod.fst rest : List Int) = dbKeys rest from rfl,
      filterMap_vuYield_cons k t rest _ hk, ih']
    by_cases hst : t.state = SessionState.VERIFIED
    · by_cases hc : t.verification_code = TESTING_VERIFICATION_CODE
      · simp [List.filter_cons, hst, hc]
      · simp [List.filter_cons, hst, hc]
    · simp [List.filter_cons, hst]

/-! ### A characterization of `_get` -/

theorem _get_eq_some {db : Store} {uid : Int} {u : Nat} {s : Session} :
    _get db uid u = some s ↔ dbLookup db uid = some s ∧ s.uuid = u := by
  unfold _get
  rcases h : dbLookup db uid with _ | t
  · simp
  · by_cases ht : t.uuid = u
    · simp only [ht, ne_eq, not_true_eq_false, if_false, Option.some_inj]
      constructor
      · rintro rfl
        exact ⟨rfl, ht⟩
      · rintro ⟨hls, _⟩
        exact hls
    · simp only [ne_eq, ht, not_false_eq_true, if_true]
      constructor
      · intro h'
        exact Option.noConfusion h'
      · rintro ⟨hls, hu⟩
        obtain rfl := Option.some_inj.mp hls
        exact absurd hu ht

theorem _get_eq_none_of_lookup_none {db : Store} {uid : Int} {u : Nat}
    (h : dbLookup db uid = none) : _get db uid u = none := by
  unfold _get
  rw [h]


theorem stateRank_le_two (st : SessionState) : stateRank st ≤ 2 := by
  cases st <;> simp [stateRank]

/-- Every operation preserves distinctness of the store's keys. -/
theorem nodup_dbKeys_applyOp (e : Int) (op : Op) (db : Store)
    (h : (dbKeys db).Nodup) : (dbKeys (applyOp e op db)).Nodup := by
  cases op with
  | opTryNew uid gid name r su now =>
      simp only [applyOp, try_new]
      rcases hl : dbLookup db uid with _ | s
      · exact nodup_dbKeys_dbInsert h
      · exact h
  | opSetEmailSent uid u =>
      simp only [applyOp, set_email_sent]
      rcases hg : _get db uid u with _ | s
      · exact h
      · exact nodup_dbKeys_dbInsert h
  | opVerify uid u c =>
      simp only [applyOp, verify]
      rcases hg : _get db uid u with _ | s
      · exact h
      · by_cases h0 : s.remaining_attempts = 0
        · simp only [h0, if_true]
          exact h
        · by_cases hc : c = s.verification_code
          · simp only [h0, if_false, hc, if_true]
            exact nodup_dbKeys_dbInsert h
          · simp only [h0, if_false, hc]
            exact nodup_dbKeys_dbInsert h
  | opDeleteSession uid =>
      exact nodup_dbKeys_dbErase h
  | opCollectGarbage now =>
      simp only [applyOp]
      rw [collect_garbage_eq_filter e now db h]
      exact h.sublist (List.Sublist.map Prod.fst (List.filter_sublist db))

/-! ### Branch lemmas for `try_new`, `dbErase` and `verify` -/

theorem try_new_some {db : Store} {uid gid : Int} {name : String}
    {r su : Nat} {now : Int} {s : Session} (h : dbLookup db uid = some s) :
    try_new uid gid name r su now db = (s.uuid, db) := by
  simp only [try_new, h]

theorem try_new_none {db : Store} {uid gid : Int} {name : String}
    {r su : Nat} {now : Int} (h : dbLookup db uid = none) :
    try_new uid gid name r su now db =
      (su, dbInsert uid (freshSession uid gid name r su now) db) := by
  simp only [try_new, freshSession, h]

theorem dbErase_eq_of_lookup_none {db : Store} {uid : Int}
    (h : dbLookup db uid = none) : dbErase uid db = db := by
  induction db with
  | nil => rfl
  | cons p rest ih =>
    obtain ⟨k, t⟩ := p
    simp only [dbLookup] at h
    by_cases hk : k = uid
    · rw [if_pos hk] at h
      exact Option.noConfusion h
    · rw [if_neg hk] at h
      simp [dbErase, hk, ih h]

/-- Sequential `verify` is exactly a read (`_get`) followed by
`verifyCompute` and the corresponding write. -/
theorem verify_eq_verifyCompute (uid : Int) (u : Nat) (c : String)
    (db : Store) :
    verify uid u c db =
      match _get db uid u with
      | none => (none, db)
      | some s =>
          match verifyCompute s c with
          | (res, none) => (some res, db)
          | (res, some t) => (some res, dbInsert uid t db) := by
  unfold verify verifyCompute
  rcases _get db uid u with _ | s
  · rfl
  · by_cases h0 : s.remaining_attempts = 0
    · simp [h0]
    · by_cases hc : c = s.verification_code <;> simp [h0, hc]

/-! ### C1: idempotent creation -/

/-- **C1.**  Idempotent creation: when a session already exists for
`user_id`, `try_new` returns the stored `secondary_id` and leaves the store
(hence `verification_code` and `created_at`) untouched; when none exists it
persists exactly the fresh record, whose state is `WAITING_ON_START` and
whose `remaining_attempts` is `5`; and a second call — with whatever fresh
randomness — returns the same `secondary_id` as the first and does not
mutate the store the first call produced. -/
theorem try_new_idempotent (uid gid : Int) (name : String)
    (r1 u1 : Nat) (n1 : Int) (r2 u2 : Nat) (n2 : Int) (db : Store) :
    (∀ s, dbLookup db uid = some s →
        try_new uid gid name r1 u1 n1 db = (s.uuid, db)) ∧
    (dbLookup db uid = none →
        dbLookup (try_new uid gid name r1 u1 n1 db).2 uid =
          some (freshSession uid gid name r1 u1 n1) ∧
        (freshSession uid gid name r1 u1 n1).state =
          SessionState.WAITING_ON_START ∧
        (freshSession uid gid name r1 u1 n1).remaining_attempts = 5) ∧
    (try_new uid gid name r2 u2 n2 (try_new uid gid name r1 u1 n1 db).2).1 =
      (try_new uid gid name r1 u1 n1 db).1 ∧
    (try_new uid gid name r2 u2 n2 (try_new uid gid name r1 u1 n1 db).2).2 =
      (try_new uid gid name r1 u1 n1 db).2 := by
  have hmain :
      (try_new uid gid name r2 u2 n2 (try_new uid gid name r1 u1 n1 db).2).1 =
        (try_new uid gid name r1 u1 n1 db).1 ∧
      (try_new uid gid name r2 u2 n2 (try_new uid gid name r1 u1 n1 db).2).2 =
        (try_new uid gid name r1 u1 n1 db).2 := by
    rcases hl : dbLookup db uid with _ | s
    · rw [try_new_none hl]
      have h2 : dbLookup (dbInsert uid (freshSession uid gid name r1 u1 n1) db)
          uid = some (freshSession uid gid name r1 u1 n1) := by
        rw [dbLookup_dbInsert]
        simp
      rw [try_new_some h2]
      exact ⟨rfl, rfl⟩
    · rw [try_new_some hl, try_new_some hl]
      exact ⟨rfl, rfl⟩
  refine ⟨fun s hs => try_new_some hs, ?_, hmain.1, hmain.2⟩
  intro hn
  rw [try_new_none hn]
  refine ⟨?_, rfl, rfl⟩
  rw [dbLookup_dbInsert]
  simp

/-- Witness for C1: a fresh creation for user 42 on the empty store, followed
by a second call with different randomness. -/
theorem try_new_idempotent_witness :
    dbLookup (try_new 42 1 "alice" 123456 7 0 []).2 42 =
      some (freshSession 42 1 "alice" 123456 7 0) ∧
    (try_new 42 1 "alice" 654321 8 9 (try_new 42 1 "alice" 123456 7 0 []).2).1 =
      (try_new 42 1 "alice" 123456 7 0 []).1 :=
  ⟨((try_new_idempotent 42 1 "alice" 123456 7 0 654321 8 9 []).2.1 rfl).1,
   (try_new_idempotent 42 1 "alice" 123456 7 0 654321 8 9 []).2.2.1⟩

/-! ### C4: capability check -/

/-- **C4.**  `session` (the engine's `Lookup`) returns `none` both when no
record exists for `user_id` and when a record exists whose `secondary_id`
differs from the supplied one — the very same value `none`, so the caller
cannot distinguish a wrong capability from an absent session. -/
theorem lookup_capability_mismatch (uid : Int) (u : Nat) (db : Store) :
    (dbLookup db uid = none → session uid u db = none) ∧
    (∀ s, dbLookup db uid = some s → s.uuid ≠ u → session uid u db = none) := by
  constructor
  · intro h
    unfold session
    exact _get_eq_none_of_lookup_none h
  · intro s hs hne
    unfold session _get
    rw [hs]
    show (if s.uuid ≠ u then none else some s) = none
    rw [if_pos hne]

/-- Witness for C4: an absent user and a wrong capability produce the same
answer on a concrete store. -/
theorem lookup_capability_mismatch_witness :
    session 1 9 [((42 : Int), sampleSession)] = none ∧
    session 42 9 [((42 : Int), sampleSession)] = none :=
  ⟨(lookup_capability_mismatch 1 9 [((42 : Int), sampleSession)]).1 (by decide),
   (lookup_capability_mismatch 42 9 [((42 : Int), sampleSession)]).2
     sampleSession (by decide) (by decide)⟩

/-! ### C8: deletion -/

/-- **C8 (amended).**  `delete_session` removes the record when one exists —
a subsequent `session` lookup returns `none` for every capability — and is a
no-op (apart from a warning log) when none exists; but it returns Python
`None` (`Unit` here) on both branches, so the outcome is *not* reported to
the caller as a result value. -/
theorem delete_session_removes (uid : Int) (db : Store)
    (hnd : (dbKeys db).Nodup) :
    (delete_session uid db).1 = () ∧
    (∀ u, session uid u (delete_session uid db).2 = none) ∧
    (dbLookup db uid = none → (delete_session uid db).2 = db) := by
  refine ⟨rfl, ?_, ?_⟩
  · intro u
    unfold session delete_session
    apply _get_eq_none_of_lookup_none
    rw [show ((), dbErase uid db).2 = dbErase uid db from rfl]
    rw [dbLookup_dbErase uid uid db hnd]
    simp
  · intro h
    show dbErase uid db = db
    exact dbErase_eq_of_lookup_none h

/-- Witness for C8's amended statement on a concrete store. -/
theorem delete_session_removes_witness :
    session 42 7 (delete_session 42 [((42 : Int), sampleSession)]).2 = none :=
  (delete_session_removes 42 [((42 : Int), sampleSession)] (by decide)).2.1 7

/-- **C8 counterexample.**  The claim says the existed/not-existed outcomes
of `DeleteSession` are distinguishable to the caller as explicit result
values; but `delete_session` returns the very same value (Python `None`)
when a session for user 42 existed and when the store was empty — the caller
receives no result value distinguishing the two. -/
theorem delete_session_result_counterexample :
    (delete_session 42 [((42 : Int), sampleSession)]).1 =
      (delete_session 42 ([] : Store)).1 := rfl

/-! ### C6: expiry sweep boundary -/

/-- **C6.**  `collect_garbage` deletes exactly the sessions whose age
strictly exceeds `expiry_seconds`, regardless of state: a record survives
the sweep iff it was stored and `now - created_at > expiry_seconds` fails;
in particular a session with `created_at = now - expiry_seconds - 1` is
removed and one with `created_at = now - expiry_seconds + 1` is retained. -/
theorem collect_garbage_expiry_boundary (e n : Int) (db : Store)
    (hnd : (dbKeys db).Nodup) :
    (∀ uid s, dbLookup (collect_garbage e n db) uid = some s ↔
        dbLookup db uid = some s ∧ ¬ n - s.timestamp > e) ∧
    (∀ uid s, dbLookup db uid = some s → s.timestamp = n - e - 1 →
        dbLookup (collect_garbage e n db) uid = none) ∧
    (∀ uid s, dbLookup db uid = some s → s.timestamp = n - e + 1 →
        dbLookup (collect_garbage e n db) uid = some s) := by
  have hchar : ∀ uid s, dbLookup (collect_garbage e n db) uid = some s ↔
      dbLookup db uid = some s ∧ ¬ n - s.timestamp > e := by
    intro uid s
    rw [collect_garbage_eq_filter e n db hnd, dbLookup_filter _ db hnd uid]
    rcases hl : dbLookup db uid with _ | t
    · simp
    · constructor
      · intro h
        split at h
        · rename_i heq
          exact Option.noConfusion heq
        · rename_i t' heq
          obtain rfl := Option.some_inj.mp heq
          split at h
          · obtain rfl := Option.some_inj.mp h
            rename_i hcond
            refine ⟨rfl, ?_⟩
            simpa [_expired] using hcond
          · exact Option.noConfusion h
      · rintro ⟨hts, hni⟩
        obtain rfl := Option.some_inj.mp hts
        simp [_expired, hni]
  refine ⟨hchar, ?_, ?_⟩
  · intro uid s hs ht
    rcases hres : dbLookup (collect_garbage e n db) uid with _ | t
    · rfl
    · exfalso
      obtain ⟨hl2, hni⟩ := (hchar uid t).mp hres
      obtain rfl := Option.some_inj.mp (hs.symm.trans hl2)
      apply hni
      rw [ht]
      omega
  · intro uid s hs ht
    exact (hchar uid s).mpr ⟨hs, by rw [ht]; omega⟩

/-- A store exercising both sides of the expiry boundary for the witness:
with `expiry_seconds = 10` and `now = 100`, user 42's session is one second
past expiry and user 43's is one second shy of it. -/
def gcWitnessStore : Store :=
  [(42, { sampleSession with timestamp := 89 }),
   (43, { sampleSession with timestamp := 91 })]

/-- Witness for C6 at the two boundary instants. -/
theorem collect_garbage_expiry_boundary_witness :
    dbLookup (collect_garbage 10 100 gcWitnessStore) 42 = none ∧
    dbLookup (collect_garbage 10 100 gcWitnessStore) 43 =
      some { sampleSession with timestamp := 91 } :=
  ⟨(collect_garbage_expiry_boundary 10 100 gcWitnessStore (by decide)).2.1
      42 { sampleSession with timestamp := 89 } (by decide) (by decide),
   (collect_garbage_expiry_boundary 10 100 gcWitnessStore (by decide)).2.2
      43 { sampleSession with timestamp := 91 } (by decide) (by decide)⟩

/-! ### C7: verified-session enumeration -/

/-- **C7.**  `verified_user_ids` yields exactly the stored sessions in state
`VERIFIED` whose code is not the reserved testing sentinel: the enumeration
equals an elementwise filter of the store, every yielded session is
`VERIFIED` with a non-sentinel code (so no other state is ever yielded), and
every stored `VERIFIED` session with a non-sentinel code is yielded. -/
theorem verified_user_ids_exact (db : Store) (hnd : (dbKeys db).Nodup) :
    verified_user_ids db =
      (db.filter (fun p =>
        decide (p.2.state = SessionState.VERIFIED) &&
        ! decide (p.2.verification_code = TESTING_VERIFICATION_CODE))).map
        Prod.snd ∧
    (∀ s, s ∈ verified_user_ids db →
        s.state = SessionState.VERIFIED ∧
        s.verification_code ≠ TESTING_VERIFICATION_CODE) ∧
    (∀ p, p ∈ db → p.2.state = SessionState.VERIFIED →
        p.2.verification_code ≠ TESTING_VERIFICATION_CODE →
        p.2 ∈ verified_user_ids db) := by
  have he := verified_user_ids_eq_filter db hnd
  refine ⟨he, ?_, ?_⟩
  · intro s hs
    rw [he] at hs
    obtain ⟨p, hp, hps⟩ := List.mem_map.mp hs
    have hf := (List.mem_filter.mp hp).2
    simp only [Bool.and_eq_true, decide_eq_true_eq, Bool.not_eq_true',
      decide_eq_false_iff_not] at hf
    exact hps ▸ hf
  · intro p hp h1 h2
    rw [he]
    refine List.mem_map_of_mem Prod.snd (List.mem_filter.mpr ⟨hp, ?_⟩)
    simp [h1, h2]

/-- A store with a verified session, a verified session carrying the testing
sentinel code, and a failed session, for the C7 witness. -/
def vuWitnessStore : Store :=
  [(0,
    { sampleSession with
      uuid := 1
      user_id := 0
      verification_code := TESTING_VERIFICATION_CODE
      state := SessionState.VERIFIED }),
   (42, { sampleSession with state := SessionState.VERIFIED }),
   (43,
    { sampleSession with
      uuid := 9
      user_id := 43
      state := SessionState.FAILED })]

/-- Witness for C7: only the genuine verified session is enumerated; the
sentinel-coded one and the failed one are not. -/
theorem verified_user_ids_exact_witness :
    verified_user_ids vuWitnessStore =
      [{ sampleSession with state := SessionState.VERIFIED }] :=
  ((verified_user_ids_exact vuWitnessStore (by decide)).1).trans (by decide)

/-! ### C2: attempt countdown and saturation -/

theorem verify_wrong_step {db : Store} {uid : Int} {u : Nat} {s : Session}
    (hs : dbLookup db uid = some s) (huu : s.uuid = u)
    {c : String} (hc : c ≠ s.verification_code)
    (h0 : ¬ s.remaining_attempts = 0) :
    verify uid u c db =
      (some (VerifyResult.attemptsRemaining (s.remaining_attempts - 1)),
        dbInsert uid
          { s with
            remaining_attempts := s.remaining_attempts - 1
            state := if s.remaining_attempts - 1 = 0 then SessionState.FAILED
                     else s.state } db) := by
  have hg : _get db uid u = some s := _get_eq_some.mpr ⟨hs, huu⟩
  simp only [verify, hg, if_neg h0, if_neg hc]

theorem verify_exhausted_step {db : Store} {uid : Int} {u : Nat} {s : Session}
    (hs : dbLookup db uid = some s) (huu : s.uuid = u) (c : String)
    (h0 : s.remaining_attempts = 0) :
    verify uid u c db = (some (VerifyResult.attemptsRemaining 0), db) := by
  have hg : _get db uid u = some s := _get_eq_some.mpr ⟨hs, huu⟩
  simp only [verify, hg, if_pos h0]

/-- **C2.**  For a stored session with `remaining_attempts = 5`, five
consecutive wrong-code `verify` calls answer 4, 3, 2, 1, 0 in order; the
fifth leaves the record failed with a zero counter; and a sixth wrong-code
call answers 0 again while leaving the store bit-for-bit unchanged. -/
theorem verify_attempt_countdown
    (uid : Int) (u : Nat) (db : Store) (s : Session)
    (c1 c2 c3 c4 c5 c6 : String)
    (hs : dbLookup db uid = some s) (huu : s.uuid = u)
    (hr : s.remaining_attempts = 5)
    (h1 : c1 ≠ s.verification_code) (h2 : c2 ≠ s.verification_code)
    (h3 : c3 ≠ s.verification_code) (h4 : c4 ≠ s.verification_code)
    (h5 : c5 ≠ s.verification_code) (_h6 : c6 ≠ s.verification_code) :
    (verifySeq uid u [c1, c2, c3, c4, c5] db).1 =
      [some (VerifyResult.attemptsRemaining 4),
       some (VerifyResult.attemptsRemaining 3),
       some (VerifyResult.attemptsRemaining 2),
       some (VerifyResult.attemptsRemaining 1),
       some (VerifyResult.attemptsRemaining 0)] ∧
    dbLookup (verifySeq uid u [c1, c2, c3, c4, c5] db).2 uid =
      some { s with remaining_attempts := 0, state := SessionState.FAILED } ∧
    (verify uid u c6 (verifySeq uid u [c1, c2, c3, c4, c5] db).2).1 =
      some (VerifyResult.attemptsRemaining 0) ∧
    (verify uid u c6 (verifySeq uid u [c1, c2, c3, c4, c5] db).2).2 =
      (verifySeq uid u [c1, c2, c3, c4, c5] db).2 := by
  have h0 : ¬ s.remaining_attempts = 0 := by rw [hr]; decide
  have st1 : verify uid u c1 db =
      (some (VerifyResult.attemptsRemaining 4),
        dbInsert uid { s with remaining_attempts := 4 } db) := by
    rw [verify_wrong_step hs huu h1 h0, hr]
    norm_num
  have lk1 : dbLookup (dbInsert uid { s with remaining_attempts := 4 } db) uid =
      some { s with remaining_attempts := 4 } := by
    rw [dbLookup_dbInsert]
    simp
  have st2 : verify uid u c2 (dbInsert uid { s with remaining_attempts := 4 } db) =
      (some (VerifyResult.attemptsRemaining 3),
        dbInsert uid { s with remaining_attempts := 3 }
          (dbInsert uid { s with remaining_attempts := 4 } db)) := by
    rw [verify_wrong_step lk1 huu h2 (by norm_num)]
    norm_num
  have lk2 : dbLookup (dbInsert uid { s with remaining_attempts := 3 }
      (dbInsert uid { s with remaining_attempts := 4 } db)) uid =
      some { s with remaining_attempts := 3 } := by
    rw [dbLookup_dbInsert]
    simp
  have st3 : verify uid u c3 (dbInsert uid { s with remaining_attempts := 3 }
      (dbInsert uid { s with remaining_attempts := 4 } db)) =
      (some (VerifyResult.attemptsRemaining 2),
        dbInsert uid { s with remaining_attempts := 2 }
          (dbInsert uid { s with remaining_attempts := 3 }
            (dbInsert uid { s with remaining_attempts := 4 } db))) := by
    rw [verify_wrong_step lk2 huu h3 (by norm_num)]
    norm_num
  have lk3 : dbLookup (dbInsert uid { s with remaining_attempts := 2 }
      (dbInsert uid { s with remaining_attempts := 3 }
        (dbInsert uid { s with remaining_attempts := 4 } db))) uid =
      some { s with remaining_attempts := 2 } := by
    rw [dbLookup_dbInsert]
    simp
  have st4 : verify uid u c4 (dbInsert uid { s with remaining_attempts := 2 }
      (dbInsert uid { s with remaining_attempts := 3 }
        (dbInsert uid { s with remaining_attempts := 4 } db))) =
      (some (VerifyResult.attemptsRemaining 1),
        dbInsert uid { s with remaining_attempts := 1 }
          (dbInsert uid { s with remaining_attempts := 2 }
            (dbInsert uid { s with remaining_attempts := 3 }
              (dbInsert uid { s with remaining_attempts := 4 } db)))) := by
    rw [verify_wrong_step lk3 huu h4 (by norm_num)]
    norm_num
  have lk4 : dbLookup (dbInsert uid { s with remaining_attempts := 1 }
      (dbInsert uid { s with remaining_attempts := 2 }
        (dbInsert uid { s with remaining_attempts := 3 }
          (dbInsert uid { s with remaining_attempts := 4 } db)))) uid =
      some { s with remaining_attempts := 1 } := by
    rw [dbLookup_dbInsert]
    simp
  have st5 : verify uid u c5 (dbInsert uid { s with remaining_attempts := 1 }
      (dbInsert uid { s with remaining_attempts := 2 }
        (dbInsert uid { s with remaining_attempts := 3 }
          (dbInsert uid { s with remaining_attempts := 4 } db)))) =
      (some (VerifyResult.attemptsRemaining 0),
        dbInsert uid
          { s with remaining_attempts := 0, state := SessionState.FAILED }
          (dbInsert uid { s with remaining_attempts := 1 }
            (dbInsert uid { s with remaining_attempts := 2 }
              (dbInsert uid { s with remaining_attempts := 3 }
                (dbInsert uid { s with remaining_attempts := 4 } db))))) := by
    rw [verify_wrong_step lk4 huu h5 (by norm_num)]
    norm_num
  have lk5 : dbLookup (dbInsert uid
      { s with remaining_attempts := 0, state := SessionState.FAILED }
      (dbInsert uid { s with remaining_attempts := 1 }
        (dbInsert uid { s with remaining_attempts := 2 }
          (dbInsert uid { s with remaining_attempts := 3 }
            (dbInsert uid { s with remaining_attempts := 4 } db))))) uid =
      some { s with remaining_attempts := 0, state := SessionState.FAILED } := by
    rw [dbLookup_dbInsert]
    simp
  have hseq : verifySeq uid u [c1, c2, c3, c4, c5] db =
      ([some (VerifyResult.attemptsRemaining 4),
        some (VerifyResult.attemptsRemaining 3),
        some (VerifyResult.attemptsRemaining 2),
        some (VerifyResult.attemptsRemaining 1),
        some (VerifyResult.attemptsRemaining 0)],
       dbInsert uid
         { s with remaining_attempts := 0, state := SessionState.FAILED }
         (dbInsert uid { s with remaining_attempts := 1 }
           (dbInsert uid { s with remaining_attempts := 2 }
             (dbInsert uid { s with remaining_attempts := 3 }
               (dbInsert uid { s with remaining_attempts := 4 } db))))) := by
    simp only [verifySeq, st1, st2, st3, st4, st5]
  have st6 := verify_exhausted_step lk5 huu c6 rfl
  rw [hseq]
  exact ⟨rfl, lk5, by rw [st6], by rw [st6]⟩

/-- Witness for C2: the countdown on a concrete store holding a fresh
session for user 42, all six attempts using the wrong code `"000000"`. -/
theorem verify_attempt_countdown_witness :
    (verifySeq 42 7 ["000000", "000000", "000000", "000000", "000000"]
        [((42 : Int), sampleSession)]).1 =
      [some (VerifyResult.attemptsRemaining 4),
       some (VerifyResult.attemptsRemaining 3),
       some (VerifyResult.attemptsRemaining 2),
       some (VerifyResult.attemptsRemaining 1),
       some (VerifyResult.attemptsRemaining 0)] :=
  (verify_attempt_countdown 42 7 [((42 : Int), sampleSession)] sampleSession
    "000000" "000000" "000000" "000000" "000000" "000000"
    (by decide) (by decide) (by decide)
    (by decide) (by decide) (by decide) (by decide) (by decide) (by decide)).1

/-! ### C3: state monotonicity -/

/-- **C3 (amended).**  Across any single engine operation, the rank of a
surviving session's state along
`WAITING_ON_START (0) → WAITING_ON_CODE (1) → {VERIFIED, FAILED} (2)` never
decreases, provided `set_email_sent` is only invoked under its documented
precondition (session in `WAITING_ON_START` or `WAITING_ON_CODE`, as the web
front-end guarantees).  The two terminal states share the top rank: a
wrong-code `verify` may still move `VERIFIED` to `FAILED`, and without the
precondition `set_email_sent` resets terminal sessions to
`WAITING_ON_CODE` — both shown in the counterexample. -/
theorem state_rank_monotone (e : Int) (op : Op) (db : Store) (uid : Int)
    (s s' : Session) (hnd : (dbKeys db).Nodup) (hok : opOk db op)
    (hb : dbLookup db uid = some s)
    (ha : dbLookup (applyOp e op db) uid = some s') :
    stateRank s.state ≤ stateRank s'.state := by
  cases op with
  | opTryNew uid2 gid name r su now =>
      simp only [applyOp] at ha
      rcases hl : dbLookup db uid2 with _ | t
      · rw [try_new_none hl] at ha
        simp only at ha
        rw [dbLookup_dbInsert] at ha
        by_cases he : uid2 = uid
        · subst he
          rw [hl] at hb
          exact Option.noConfusion hb
        · rw [if_neg he] at ha
          obtain rfl := Option.some_inj.mp (hb.symm.trans ha)
          exact le_refl _
      · rw [try_new_some hl] at ha
        simp only at ha
        obtain rfl := Option.some_inj.mp (hb.symm.trans ha)
        exact le_refl _
  | opSetEmailSent uid2 u =>
      simp only [applyOp] at ha
      rcases hg : _get db uid2 u with _ | t
      · simp only [set_email_sent, hg] at ha
        obtain rfl := Option.some_inj.mp (hb.symm.trans ha)
        exact le_refl _
      · simp only [set_email_sent, hg] at ha
        rw [dbLookup_dbInsert] at ha
        by_cases he : uid2 = uid
        · rw [if_pos he] at ha
          obtain rfl := Option.some_inj.mp ha
          obtain ⟨hlt, _⟩ := _get_eq_some.mp hg
          subst he
          obtain rfl := Option.some_inj.mp (hb.symm.trans hlt)
          rcases hok s hg with h' | h' <;> simp [h', stateRank]
        · rw [if_neg he] at ha
          obtain rfl := Option.some_inj.mp (hb.symm.trans ha)
          exact le_refl _
  | opVerify uid2 u c =>
      simp only [applyOp] at ha
      rcases hg : _get db uid2 u with _ | t
      · have hv : (verify uid2 u c db).2 = db := by simp only [verify, hg]
        rw [hv] at ha
        obtain rfl := Option.some_inj.mp (hb.symm.trans ha)
        exact le_refl _
      · by_cases h0 : t.remaining_attempts = 0
        · have hv : (verify uid2 u c db).2 = db := by
            simp only [verify, hg, if_pos h0]
          rw [hv] at ha
          obtain rfl := Option.some_inj.mp (hb.symm.trans ha)
          exact le_refl _
        · by_cases hc : c = t.verification_code
          · have hv : (verify uid2 u c db).2 =
                dbInsert uid2 { t with state := SessionState.VERIFIED } db := by
              simp only [verify, hg, if_neg h0, if_pos hc]
            rw [hv, dbLookup_dbInsert] at ha
            by_cases he : uid2 = uid
            · rw [if_pos he] at ha
              obtain rfl := Option.some_inj.mp ha
              exact stateRank_le_two s.state
            · rw [if_neg he] at ha
              obtain rfl := Option.some_inj.mp (hb.symm.trans ha)
              exact le_refl _
          · have hv : (verify uid2 u c db).2 =
                dbInsert uid2
                  { t with
                    remaining_attempts := t.remaining_attempts - 1
                    state := if t.remaining_attempts - 1 = 0 then
                      SessionState.FAILED else t.state } db := by
              simp only [verify, hg, if_neg h0, if_neg hc]
            rw [hv, dbLookup_dbInsert] at ha
            by_cases he : uid2 = uid
            · rw [if_pos he] at ha
              obtain rfl := Option.some_inj.mp ha
              obtain ⟨hlt, _⟩ := _get_eq_some.mp hg
              subst he
              obtain rfl := Option.some_inj.mp (hb.symm.trans hlt)
              by_cases hz : s.remaining_attempts - 1 = 0
              · show stateRank s.state ≤
                  stateRank (if s.remaining_attempts - 1 = 0 then
                    SessionState.FAILED else s.state)
                rw [if_pos hz]
                exact stateRank_le_two s.state
              · show stateRank s.state ≤
                  stateRank (if s.remaining_attempts - 1 = 0 then
                    SessionState.FAILED else s.state)
                rw [if_neg hz]
            · rw [if_neg he] at ha
              obtain rfl := Option.some_inj.mp (hb.symm.trans ha)
              exact le_refl _
  | opDeleteSession uid2 =>
      simp only [applyOp, delete_session] at ha
      rw [dbLookup_dbErase uid2 uid db hnd] at ha
      by_cases he : uid2 = uid
      · rw [if_pos he] at ha
        exact Option.noConfusion ha
      · rw [if_neg he] at ha
        obtain rfl := Option.some_inj.mp (hb.symm.trans ha)
        exact le_refl _
  | opCollectGarbage now =>
      simp only [applyOp] at ha
      rw [collect_garbage_eq_filter e now db hnd,
        dbLookup_filter _ db hnd uid] at ha
      simp only [hb] at ha
      split at ha
      · obtain rfl := Option.some_inj.mp ha
        exact le_refl _
      · exact Option.noConfusion ha

/-- **C3 counterexample.**  The claim quantifies over every sequence of
engine operations and says in particular that a session in state `VERIFIED`
never later has state `WAITING_ON_CODE` or `FAILED`.  Starting from the
empty store, `try_new` creates user 42's session and a correct-code `verify`
moves it to `VERIFIED`; then (a) an unguarded `set_email_sent` moves it back
to `WAITING_ON_CODE`, and (b) five wrong-code `verify` calls on the verified
session move it to `FAILED`.  Both runs use only engine operations. -/
theorem state_monotone_counterexample :
    (dbLookup (verify 42 7 "123456"
        (try_new 42 1 "alice" 123456 7 0 []).2).2 42).map
      Session.state = some SessionState.VERIFIED ∧
    (dbLookup (set_email_sent 42 7
        (verify 42 7 "123456"
          (try_new 42 1 "alice" 123456 7 0 []).2).2) 42).map
      Session.state = some SessionState.WAITING_ON_CODE ∧
    (dbLookup (verifySeq 42 7 ["0", "0", "0", "0", "0"]
        (verify 42 7 "123456"
          (try_new 42 1 "alice" 123456 7 0 []).2).2).2 42).map
      Session.state = some SessionState.FAILED := by decide

/-- Witness for C3's amended statement: a wrong-code `verify` step on a
concrete store, across which the state rank does not decrease. -/
theorem state_rank_monotone_witness :
    stateRank sampleSession.state ≤
      stateRank ({ sampleSession with remaining_attempts := 4 }).state :=
  state_rank_monotone 10 (Op.opVerify 42 7 "000000")
    [((42 : Int), sampleSession)] 42 sampleSession
    { sampleSession with remaining_attempts := 4 }
    (by decide) trivial (by decide) (by decide)

/-! ### C5: the attempts-counter invariant -/

theorem SessionInv_freshSession (uid gid : Int) (name : String)
    (r su : Nat) (now : Int) : SessionInv (freshSession uid gid name r su now) := by
  unfold SessionInv freshSession
  refine ⟨by norm_num, by norm_num, ?_, ?_⟩
  · intro h
    norm_num at h
  · intro _
    norm_num

/-- Every engine operation preserves the store invariant, provided
`set_email_sent` respects its documented precondition. -/
theorem storeInv_applyOp (e : Int) (op : Op) (db : Store)
    (hok : opOk db op) (hinv : StoreInv db) : StoreInv (applyOp e op db) := by
  obtain ⟨hnd, hall⟩ := hinv
  refine ⟨nodup_dbKeys_applyOp e op db hnd, ?_⟩
  intro p hp
  cases op with
  | opTryNew uid gid name r su now =>
      simp only [applyOp] at hp
      rcases hl : dbLookup db uid with _ | t
      · rw [try_new_none hl] at hp
        simp only at hp
        rcases mem_dbInsert hp with h' | h'
        · rw [h']
          exact SessionInv_freshSession uid gid name r su now
        · exact hall p h'
      · rw [try_new_some hl] at hp
        exact hall p hp
  | opSetEmailSent uid u =>
      simp only [applyOp] at hp
      rcases hg : _get db uid u with _ | t
      · simp only [set_email_sent, hg] at hp
        exact hall p hp
      · simp only [set_email_sent, hg] at hp
        rcases mem_dbInsert hp with h' | h'
        · obtain ⟨hA, hB, hC, hD⟩ :=
            hall (uid, t) (dbLookup_mem (_get_eq_some.mp hg).1)
          dsimp only at hA hB hC hD
          have h1 : 1 ≤ t.remaining_attempts := hD (hok t hg)
          rw [h']
          unfold SessionInv
          dsimp only
          exact ⟨hA, hB, fun h0 => absurd h0 (by omega), fun _ => h1⟩
        · exact hall p h'
  | opVerify uid u c =>
      simp only [applyOp] at hp
      rcases hg : _get db uid u with _ | t
      · have hv : (verify uid u c db).2 = db := by simp only [verify, hg]
        rw [hv] at hp
        exact hall p hp
      · obtain ⟨hA, hB, hC, hD⟩ :=
          hall (uid, t) (dbLookup_mem (_get_eq_some.mp hg).1)
        dsimp only at hA hB hC hD
        by_cases h0 : t.remaining_attempts = 0
        · have hv : (verify uid u c db).2 = db := by
            simp only [verify, hg, if_pos h0]
          rw [hv] at hp
          exact hall p hp
        · by_cases hc : c = t.verification_code
          · have hv : (verify uid u c db).2 =
                dbInsert uid { t with state := SessionState.VERIFIED } db := by
              simp only [verify, hg, if_neg h0, if_pos hc]
            rw [hv] at hp
            rcases mem_dbInsert hp with h' | h'
            · rw [h']
              unfold SessionInv
              dsimp only
              refine ⟨hA, hB, fun h0' => absurd h0' h0, ?_⟩
              intro hw
              rcases hw with hw | hw <;> simp at hw
            · exact hall p h'
          · have hv : (verify uid u c db).2 =
                dbInsert uid
                  { t with
                    remaining_attempts := t.remaining_attempts - 1
                    state := if t.remaining_attempts - 1 = 0 then
                      SessionState.FAILED else t.state } db := by
              simp only [verify, hg, if_neg h0, if_neg hc]
            rw [hv] at hp
            rcases mem_dbInsert hp with h' | h'
            · rw [h']
              unfold SessionInv
              dsimp only
              refine ⟨by omega, by omega, ?_, ?_⟩
              · intro hz
                rw [if_pos hz]
              · intro hw
                by_cases hz : t.remaining_attempts - 1 = 0
                · rw [if_pos hz] at hw
                  rcases hw with hw | hw <;> simp at hw
                · omega
            · exact hall p h'
  | opDeleteSession uid =>
      simp only [applyOp, delete_session] at hp
      exact hall p (mem_dbErase hp)
  | opCollectGarbage now =>
      simp only [applyOp] at hp
      rw [collect_garbage_eq_filter e now db hnd] at hp
      exact hall p (List.mem_filter.mp hp).1

/-- Across any single engine operation, a surviving session's
`remaining_attempts` never increases. -/
theorem remaining_attempts_step (e : Int) (op : Op) (db : Store) (uid : Int)
    (s s' : Session) (hnd : (dbKeys db).Nodup)
    (hb : dbLookup db uid = some s)
    (ha : dbLookup (applyOp e op db) uid = some s') :
    s'.remaining_attempts ≤ s.remaining_attempts := by
  cases op with
  | opTryNew uid2 gid name r su now =>
      simp only [applyOp] at ha
      rcases hl : dbLookup db uid2 with _ | t
      · rw [try_new_none hl] at ha
        simp only at ha
        rw [dbLookup_dbInsert] at ha
        by_cases he : uid2 = uid
        · subst he
          rw [hl] at hb
          exact Option.noConfusion hb
        · rw [if_neg he] at ha
          obtain rfl := Option.some_inj.mp (hb.symm.trans ha)
          exact le_refl _
      · rw [try_new_some hl] at ha
        simp only at ha
        obtain rfl := Option.some_inj.mp (hb.symm.trans ha)
        exact le_refl _
  | opSetEmailSent uid2 u =>
      simp only [applyOp] at ha
      rcases hg : _get db uid2 u with _ | t
      · simp only [set_email_sent, hg] at ha
        obtain rfl := Option.some_inj.mp (hb.symm.trans ha)
        exact le_refl _
      · simp only [set_email_sent, hg] at ha
        rw [dbLookup_dbInsert] at ha
        by_cases he : uid2 = uid
        · rw [if_pos he] at ha
          obtain rfl := Option.some_inj.mp ha
          obtain ⟨hlt, _⟩ := _get_eq_some.mp hg
          subst he
          obtain rfl := Option.some_inj.mp (hb.symm.trans hlt)
          exact le_refl _
        · rw [if_neg he] at ha
          obtain rfl := Option.some_inj.mp (hb.symm.trans ha)
          exact le_refl _
  | opVerify uid2 u c =>
      simp only [applyOp] at ha
      rcases hg : _get db uid2 u with _ | t
      · have hv : (verify uid2 u c db).2 = db := by simp only [verify, hg]
        rw [hv] at ha
        obtain rfl := Option.some_inj.mp (hb.symm.trans ha)
        exact le_refl _
      · by_cases h0 : t.remaining_attempts = 0
        · have hv : (verify uid2 u c db).2 = db := by
            simp only [verify, hg, if_pos h0]
          rw [hv] at ha
          obtain rfl := Option.some_inj.mp (hb.symm.trans ha)
          exact le_refl _
        · by_cases hc : c = t.verification_code
          · have hv : (verify uid2 u c db).2 =
                dbInsert uid2 { t with state := SessionState.VERIFIED } db := by
              simp only [verify, hg, if_neg h0, if_pos hc]
            rw [hv, dbLookup_dbInsert] at ha
            by_cases he : uid2 = uid
            · rw [if_pos he] at ha
              obtain rfl := Option.some_inj.mp ha
              obtain ⟨hlt, _⟩ := _get_eq_some.mp hg
              subst he
              obtain rfl := Option.some_inj.mp (hb.symm.trans hlt)
              exact le_refl _
            · rw [if_neg he] at ha
              obtain rfl := Option.some_inj.mp (hb.symm.trans ha)
              exact le_refl _
          · have hv : (verify uid2 u c db).2 =
                dbInsert uid2
                  { t with
                    remaining_attempts := t.remaining_attempts - 1
                    state := if t.remaining_attempts - 1 = 0 then
                      SessionState.FAILED else t.state } db := by
              simp only [verify, hg, if_neg h0, if_neg hc]
            rw [hv, dbLookup_dbInsert] at ha
            by_cases he : uid2 = uid
            · rw [if_pos he] at ha
              obtain rfl := Option.some_inj.mp ha
              obtain ⟨hlt, _⟩ := _get_eq_some.mp hg
              subst he
              obtain rfl := Option.some_inj.mp (hb.symm.trans hlt)
              dsimp only
              omega
            · rw [if_neg he] at ha
              obtain rfl := Option.some_inj.mp (hb.symm.trans ha)
              exact le_refl _
  | opDeleteSession uid2 =>
      simp only [applyOp, delete_session] at ha
      rw [dbLookup_dbErase uid2 uid db hnd] at ha
      by_cases he : uid2 = uid
      · rw [if_pos he] at ha
        exact Option.noConfusion ha
      · rw [if_neg he] at ha
        obtain rfl := Option.some_inj.mp (hb.symm.trans ha)
        exact le_refl _
  | opCollectGarbage now =>
      simp only [applyOp] at ha
      rw [collect_garbage_eq_filter e now db hnd,
        dbLookup_filter _ db hnd uid] at ha
      simp only [hb] at ha
      split at ha
      · obtain rfl := Option.some_inj.mp ha
        exact le_refl _
      · exact Option.noConfusion ha

/-- Every engine operation — including an *unguarded* `set_email_sent` —
keeps every stored counter within `[0, 5]` when all counters were within
`[0, 5]` before. -/
theorem range_applyOp (e : Int) (op : Op) (db : Store)
    (hnd : (dbKeys db).Nodup)
    (hr : ∀ p ∈ db, 0 ≤ p.2.remaining_attempts ∧ p.2.remaining_attempts ≤ 5) :
    ∀ p ∈ applyOp e op db,
      0 ≤ p.2.remaining_attempts ∧ p.2.remaining_attempts ≤ 5 := by
  intro p hp
  cases op with
  | opTryNew uid gid name r su now =>
      simp only [applyOp] at hp
      rcases hl : dbLookup db uid with _ | t
      · rw [try_new_none hl] at hp
        simp only at hp
        rcases mem_dbInsert hp with h' | h'
        · rw [h']
          unfold freshSession
          dsimp only
          norm_num
        · exact hr p h'
      · rw [try_new_some hl] at hp
        exact hr p hp
  | opSetEmailSent uid u =>
      simp only [applyOp] at hp
      rcases hg : _get db uid u with _ | t
      · simp only [set_email_sent, hg] at hp
        exact hr p hp
      · simp only [set_email_sent, hg] at hp
        rcases mem_dbInsert hp with h' | h'
        · have ht := hr (uid, t) (dbLookup_mem (_get_eq_some.mp hg).1)
          dsimp only at ht
          rw [h']
          dsimp only
          exact ht
        · exact hr p h'
  | opVerify uid u c =>
      simp only [applyOp] at hp
      rcases hg : _get db uid u with _ | t
      · have hv : (verify uid u c db).2 = db := by simp only [verify, hg]
        rw [hv] at hp
        exact hr p hp
      · have ht := hr (uid, t) (dbLookup_mem (_get_eq_some.mp hg).1)
        dsimp only at ht
        by_cases h0 : t.remaining_attempts = 0
        · have hv : (verify uid u c db).2 = db := by
            simp only [verify, hg, if_pos h0]
          rw [hv] at hp
          exact hr p hp
        · by_cases hc : c = t.verification_code
          · have hv : (verify uid u c db).2 =
                dbInsert uid { t with state := SessionState.VERIFIED } db := by
              simp only [verify, hg, if_neg h0, if_pos hc]
            rw [hv] at hp
            rcases mem_dbInsert hp with h' | h'
            · rw [h']
              dsimp only
              exact ht
            · exact hr p h'
          · have hv : (verify uid u c db).2 =
                dbInsert uid
                  { t with
                    remaining_attempts := t.remaining_attempts - 1
                    state := if t.remaining_attempts - 1 = 0 then
                      SessionState.FAILED else t.state } db := by
              simp only [verify, hg, if_neg h0, if_neg hc]
            rw [hv] at hp
            rcases mem_dbInsert hp with h' | h'
            · rw [h']
              dsimp only
              omega
            · exact hr p h'
  | opDeleteSession uid =>
      simp only [applyOp, delete_session] at hp
      exact hr p (mem_dbErase hp)
  | opCollectGarbage now =>
      simp only [applyOp] at hp
      rw [collect_garbage_eq_filter e now db hnd] at hp
      exact hr p (List.mem_filter.mp hp).1

/-- **C5 (amended).**  Unconditionally over every engine operation (the
store's distinct-key `dict` shape is the only standing assumption):
a surviving session's counter never increases across one operation; any
store whose counters all lie in `[0, 5]` still has all counters in `[0, 5]`
afterwards — with no restriction on `set_email_sent`; and `try_new`
initializes the counter of a fresh record to `5`.  The remaining clause of
the claim holds only under `set_email_sent`'s documented precondition
(session in `WAITING_ON_START` or `WAITING_ON_CODE`): then the full store
invariant is preserved and a zero counter forces state `FAILED`; without
the precondition that clause is false (see the counterexample): an
unguarded `set_email_sent` on a `FAILED` session yields `WAITING_ON_CODE`
with a zero counter. -/
theorem attempts_counter_invariant (e : Int) (op : Op) (db : Store)
    (hnd : (dbKeys db).Nodup) :
    (∀ uid s s', dbLookup db uid = some s →
        dbLookup (applyOp e op db) uid = some s' →
        s'.remaining_attempts ≤ s.remaining_attempts) ∧
    ((∀ p ∈ db, 0 ≤ p.2.remaining_attempts ∧ p.2.remaining_attempts ≤ 5) →
      ∀ p ∈ applyOp e op db,
        0 ≤ p.2.remaining_attempts ∧ p.2.remaining_attempts ≤ 5) ∧
    (∀ uid2 gid name r su now t, dbLookup db uid2 = none →
        dbLookup (try_new uid2 gid name r su now db).2 uid2 = some t →
        t.remaining_attempts = 5) ∧
    (opOk db op → StoreInv db →
      StoreInv (applyOp e op db) ∧
      ∀ uid s, dbLookup (applyOp e op db) uid = some s →
        s.remaining_attempts = 0 → s.state = SessionState.FAILED) := by
  refine ⟨?_, ?_, ?_, ?_⟩
  · intro uid s s' hb ha
    exact remaining_attempts_step e op db uid s s' hnd hb ha
  · intro hr
    exact range_applyOp e op db hnd hr
  · intro uid2 gid name r su now t hnone hlook
    rw [try_new_none hnone] at hlook
    simp only at hlook
    rw [dbLookup_dbInsert, if_pos rfl] at hlook
    obtain rfl := Option.some_inj.mp hlook
    rfl
  · intro hok hinv
    have hpres := storeInv_applyOp e op db hok hinv
    refine ⟨hpres, ?_⟩
    intro uid s ha
    obtain ⟨_, _, hC, _⟩ := hpres.2 (uid, s) (dbLookup_mem ha)
    dsimp only at hC
    exact hC

/-- **C5 counterexample.**  Through engine operations alone — `try_new`,
five wrong-code `verify` calls (driving the session to `FAILED` with zero
attempts), then an unguarded `set_email_sent` — the store reaches a record
with `remaining_attempts = 0` whose state is `WAITING_ON_CODE`, not
`FAILED`, refuting the claim's zero-implies-`Failed` clause over all engine
operations. -/
theorem attempts_invariant_counterexample :
    (dbLookup (set_email_sent 42 7
        (verifySeq 42 7 ["0", "0", "0", "0", "0"]
          (try_new 42 1 "alice" 100000 7 0 []).2).2) 42).map
      Session.state = some SessionState.WAITING_ON_CODE ∧
    (dbLookup (set_email_sent 42 7
        (verifySeq 42 7 ["0", "0", "0", "0", "0"]
          (try_new 42 1 "alice" 100000 7 0 []).2).2) 42).map
      Session.remaining_attempts = some 0 := by decide

/-- Witness for C5's amended statement on a wrong-code `verify` over a
concrete store: the surviving counter does not increase, and — the
precondition holding trivially for a `verify` operation — the full store
invariant is preserved. -/
theorem attempts_counter_invariant_witness :
    ({ sampleSession with remaining_attempts := 4 }).remaining_attempts ≤
      sampleSession.remaining_attempts ∧
    StoreInv (applyOp 10 (Op.opVerify 42 7 "000000")
      [((42 : Int), sampleSession)]) :=
  ⟨(attempts_counter_invariant 10 (Op.opVerify 42 7 "000000")
      [((42 : Int), sampleSession)] (by decide)).1 42 sampleSession
      { sampleSession with remaining_attempts := 4 } (by decide) (by decide),
   ((attempts_counter_invariant 10 (Op.opVerify 42 7 "000000")
      [((42 : Int), sampleSession)] (by decide)).2.2.2 trivial (by decide)).1⟩

/-! ### C9: the verify read-modify-write race -/

/-- **C9 (failing input).**  `verify` is *not* serialized per `user_id`: its
read and its write happen in separate store transactions with no per-user
lock, so two concurrent wrong-code calls can both read the same record
before either write lands (`interleaved_two_verifies`).  Starting from
`remaining_attempts = 2`: serialized execution ends at
`remaining_attempts = 0` with state `FAILED`, while the interleaving loses
one decrement and ends at `remaining_attempts = 1` still awaiting a code —
a different store than every serialized order, refuting strict per-user
serialization. -/
theorem verify_race_lost_update :
    (dbLookup (verify 42 7 "000000"
        (verify 42 7 "000000"
          [((42 : Int), { sampleSession with remaining_attempts := 2 })]).2).2
        42).map Session.remaining_attempts = some 0 ∧
    (dbLookup (verify 42 7 "000000"
        (verify 42 7 "000000"
          [((42 : Int), { sampleSession with remaining_attempts := 2 })]).2).2
        42).map Session.state = some SessionState.FAILED ∧
    (dbLookup (interleaved_two_verifies 42 7 "000000" "000000"
        [((42 : Int), { sampleSession with remaining_attempts := 2 })]).2
        42).map Session.remaining_attempts = some 1 ∧
    (dbLookup (interleaved_two_verifies 42 7 "000000" "000000"
        [((42 : Int), { sampleSession with remaining_attempts := 2 })]).2
        42).map Session.state = some SessionState.WAITING_ON_CODE ∧
    (interleaved_two_verifies 42 7 "000000" "000000"
        [((42 : Int), { sampleSession with remaining_attempts := 2 })]).2 ≠
      (verify 42 7 "000000"
        (verify 42 7 "000000"
          [((42 : Int), { sampleSession with remaining_attempts := 2 })]).2).2 := by
  decide

/-! ### C10: fresh verification codes are six-digit strings -/

theorem toDigitsCore_ten_length :
    ∀ (f n : Nat) (l : List Char), n < f →
      (Nat.toDigitsCore 10 f n l).length = Nat.log 10 n + 1 + l.length := by
  intro f
  induction f with
  | zero =>
      intro n l h
      exact absurd h (Nat.not_lt_zero n)
  | succ f ih =>
      intro n l h
      simp only [Nat.toDigitsCore]
      by_cases hd : n / 10 = 0
      · rw [if_pos hd]
        have hn : n < 10 := by
          by_contra hge
          push_neg at hge
          exact absurd hd (Nat.div_pos hge (by norm_num)).ne'
        have hlog : Nat.log 10 n = 0 := Nat.log_eq_zero_iff.mpr (Or.inl hn)
        rw [hlog, List.length_cons]
        omega
      · rw [if_neg hd]
        have h10 : 10 ≤ n := by
          by_contra hlt
          push_neg at hlt
          exact hd (Nat.div_eq_of_lt hlt)
        have hrec : n / 10 < f := by
          have hlt : n / 10 < n := Nat.div_lt_self (by omega) (by norm_num)
          omega
        have hp : 0 < Nat.log 10 n := Nat.log_pos (by norm_num) h10
        rw [ih (n / 10) (Nat.digitChar (n % 10) :: l) hrec,
          Nat.log_div_base, List.length_cons]
        omega

/-- The decimal representation of `n` has exactly `log₁₀ n + 1` digits. -/
theorem repr_length_eq (n : Nat) :
    (Nat.repr n).length = Nat.log 10 n + 1 := by
  unfold Nat.repr Nat.toDigits
  rw [List.length_asString, toDigitsCore_ten_length (n + 1) n [] (Nat.lt_succ_self n)]
  rfl

theorem log10_six_digit {n : Nat} (h1 : 100000 ≤ n) (h2 : n ≤ 999999) :
    Nat.log 10 n = 5 := by
  have ha : 10 ^ 5 ≤ n := by
    have hpow : (10 : Nat) ^ 5 = 100000 := by norm_num
    omega
  have hb : n < 10 ^ (5 + 1) := by
    have hpow : (10 : Nat) ^ (5 + 1) = 1000000 := by norm_num
    omega
  exact Nat.log_eq_of_pow_le_of_lt_pow ha hb

/-- **C10.**  Any session persisted by `try_new` for a random draw in
`[100000, 999999]` (the range of `random.randint(100000, 999999)`) carries a
verification code that is a six-character decimal string, hence distinct
from the reserved four-character sentinel `"-420"`; consequently a store
holding such a session in state `VERIFIED` enumerates it — the sentinel
filter of `verified_user_ids` never drops it. -/
theorem verification_code_six_digits (uid gid : Int) (name : String)
    (rand su : Nat) (now : Int) (db : Store) (t : Session)
    (h1 : 100000 ≤ rand) (h2 : rand ≤ 999999)
    (hnone : dbLookup db uid = none)
    (hlook : dbLookup (try_new uid gid name rand su now db).2 uid = some t) :
    t.verification_code.length = 6 ∧
    t.verification_code ≠ TESTING_VERIFICATION_CODE ∧
    verified_user_ids [(uid, { t with state := SessionState.VERIFIED })] =
      [{ t with state := SessionState.VERIFIED }] := by
  rw [try_new_none hnone] at hlook
  simp only at hlook
  rw [dbLookup_dbInsert, if_pos rfl] at hlook
  obtain rfl := Option.some_inj.mp hlook
  have hlen : (Nat.repr rand).length = 6 := by
    rw [repr_length_eq, log10_six_digit h1 h2]
  have hne : Nat.repr rand ≠ TESTING_VERIFICATION_CODE := by
    intro hEq
    rw [hEq] at hlen
    exact absurd hlen (by decide)
  refine ⟨hlen, hne, ?_⟩
  simp [verified_user_ids, dbKeys, vuYield, dbLookup, freshSession, hne]

/-- Witness for C10 at the smallest draw the source can produce. -/
theorem verification_code_six_digits_witness :
    (freshSession 42 1 "alice" 100000 7 0).verification_code.length = 6 ∧
    (freshSession 42 1 "alice" 100000 7 0).verification_code ≠
      TESTING_VERIFICATION_CODE :=
  ⟨(verification_code_six_digits 42 1 "alice" 100000 7 0 []
      (freshSession 42 1 "alice" 100000 7 0)
      (by decide) (by decide) rfl (by decide)).1,
   (verification_code_six_digits 42 1 "alice" 100000 7 0 []
      (freshSession 42 1 "alice" 100000 7 0)
      (by decide) (by decide) rfl (by decide)).2.1⟩
